import Mathlib

/-!
Verification of the content-based movie recommender
(`movie_recommender.py`): a shallow embedding of the catalog data model,
the filter evaluator (`_apply_filters`), the ranking procedure
(`recommend_movies`), the document normalizer (`_preprocess_text`) and the
query-side vectorization, together with proofs and refutations of the
specified properties.
-/

namespace MovieRec

/-- A language filter value: `extract_keywords_from_query` stores either a
single ISO code (a Python `str`) or a list of codes (a Python `list`) under
`filters['language']`. -/
inductive LangF where
  | single (code : String)
  | multi (codes : List String)
deriving DecidableEq

/-- One catalog entry, as built by the fetch code: the dict keys used by
`recommend_movies` and `_apply_filters`.  `none` models an absent key
(Python `dict.get` returning `None`). -/
structure Movie where
  id : Int
  title : String
  overview : String
  poster_path : String
  release_date : Option String := none
  first_air_date : Option String := none
  genres : List String := []
  language : Option String := none
  content_type : Option String := none
deriving DecidableEq

instance : Inhabited Movie := ⟨⟨0, "", "", "", none, none, [], none, none⟩⟩

/-- The structured filter dict: each field models the presence/absence of
the corresponding key (`'year'`, `'genre'`, `'language'`,
`'content_type'`, `'time_period'`). -/
structure Filters where
  year : Option Int := none
  genre : Option String := none
  language : Option LangF := none
  content_type : Option String := none
  time_period : Option (Int × Int) := none
deriving DecidableEq

/-- Python truthiness of the filters dict (`if filters:`): true iff some
key is present. -/
def Filters.isEmpty (f : Filters) : Bool :=
  f.year.isNone && f.genre.isNone && f.language.isNone &&
    f.content_type.isNone && f.time_period.isNone

/-- One entry of the list returned by `recommend_movies`. -/
structure RecResult where
  id : Int
  title : String
  overview : String
  poster_path : String
  release_date : String
  similarity_score : ℚ
  content_type : String
deriving DecidableEq

/-- Python truthiness of `movie.get(key)` for a string field: the key is
present and its value is a non-empty string. -/
def strTruthy (o : Option String) : Bool := !(o.getD "" == "")

/-- Python `str.lower()` (ASCII model). -/
def pyLower (s : String) : String := String.mk (s.data.map Char.toLower)

/-- The digit-string parse underlying Python `int(s)`: one or more
decimal digits. -/
def parseNatDigits (l : List Char) : Option Nat :=
  if l.isEmpty then none
  else if l.all (fun c => c.isDigit) then
    some (l.foldl (fun a c => a * 10 + (c.toNat - 48)) 0)
  else none

/-- Python `int(s)` on the inputs that occur here: an optional sign
followed by decimal digits (the whitespace tolerance of `int()` cannot
matter for a four-character date slice in `YYYY-MM-DD` format). -/
def pyInt (s : String) : Option Int :=
  match s.data with
  | '-' :: rest => (parseNatDigits rest).map (fun v => -(v : Int))
  | '+' :: rest => (parseNatDigits rest).map (fun v => (v : Int))
  | l => (parseNatDigits l).map (fun v => (v : Int))

/-- The `year_str` computed by the year filter in `_apply_filters`:
first four characters of `release_date` if truthy, else of
`first_air_date` if truthy, else the empty string. -/
def yearStrOf (m : Movie) : String :=
  if strTruthy m.release_date then (m.release_date.getD "").take 4
  else if strTruthy m.first_air_date then (m.first_air_date.getD "").take 4
  else ""

/-- The `year` used by the time-period filter in `_apply_filters`:
`int(date[:4])` of the first truthy date, with the `ValueError` handler
leaving the initial value `0` in place. -/
def tpYear (m : Movie) : Int :=
  if strTruthy m.release_date then (pyInt ((m.release_date.getD "").take 4)).getD 0
  else if strTruthy m.first_air_date then (pyInt ((m.first_air_date.getD "").take 4)).getD 0
  else 0

/-- The parse attempted by the time-period filter: `none` when the branch
taken leaves `year = 0` because the date is missing or its first four
characters do not parse as an integer. -/
def tpYearParsed (m : Movie) : Option Int :=
  if strTruthy m.release_date then pyInt ((m.release_date.getD "").take 4)
  else if strTruthy m.first_air_date then pyInt ((m.first_air_date.getD "").take 4)
  else none

/-- The language filter comparison `movie.get('language') != filters['language']`
(negated): Python `==` between an optional string and a str-or-list value
is `True` only when both are the same string. -/
def langEqPy (ml : Option String) : LangF → Bool
  | .single c => ml == some c
  | .multi _ => false

/-- The per-entry filter evaluation performed by the loop body of
`_apply_filters`: the conjunction of the checks for each present key. -/
def movieMatches (f : Filters) (m : Movie) : Bool :=
  (match f.year with
   | none => true
   | some y => yearStrOf m == toString y) &&
  (match f.genre with
   | none => true
   | some g => m.genres.any (fun x => pyLower x == pyLower g)) &&
  (match f.language with
   | none => true
   | some lf => langEqPy m.language lf) &&
  (match f.content_type with
   | none => true
   | some ct => m.content_type == some ct) &&
  (match f.time_period with
   | none => true
   | some p => decide (p.1 ≤ tpYear m) && decide (tpYear m ≤ p.2))

/-- `MovieRecommender._apply_filters`: the ascending list of catalog
indices whose entry passes every present filter. -/
def apply_filters (movies : List Movie) (f : Filters) : List Nat :=
  (List.range movies.length).filter (fun i => movieMatches f (movies.getD i default))

/-- The total order realised by `numpy.argsort` on the scores array:
ascending score, ties in ascending index order (numpy's small-array
insertion sort is stable; `kind='stable'` behaves identically). -/
def leA (s : Nat → ℚ) (i j : Nat) : Prop := s i < s j ∨ (s i = s j ∧ i ≤ j)

instance (s : Nat → ℚ) : DecidableRel (leA s) := fun i j => by
  unfold leA; infer_instance

instance (s : Nat → ℚ) : IsTotal Nat (leA s) := ⟨by
  intro i j
  rcases lt_trichotomy (s i) (s j) with h | h | h
  · exact Or.inl (Or.inl h)
  · rcases Nat.le_total i j with hij | hij
    · exact Or.inl (Or.inr ⟨h, hij⟩)
    · exact Or.inr (Or.inr ⟨h.symm, hij⟩)
  · exact Or.inr (Or.inl h)⟩

instance (s : Nat → ℚ) : IsTrans Nat (leA s) := ⟨by
  intro a b c hab hbc
  rcases hab with h1 | ⟨e1, l1⟩
  · rcases hbc with h2 | ⟨e2, l2⟩
    · exact Or.inl (h1.trans h2)
    · exact Or.inl (e2 ▸ h1)
  · rcases hbc with h2 | ⟨e2, l2⟩
    · exact Or.inl (e1 ▸ h2)
    · exact Or.inr ⟨e1.trans e2, l1.trans l2⟩⟩

/-- `cosine_similarities.argsort()`: indices `0..len-1` sorted by
ascending score (stable). -/
def argsort (len : Nat) (s : Nat → ℚ) : List Nat :=
  List.insertionSort (leA s) (List.range len)

/-- Python slice `l[start:]` for an arbitrary integer start. -/
def pyTail {α : Type} (l : List α) (start : Int) : List α :=
  if 0 ≤ start then l.drop start.toNat else l.drop (l.length - (-start).toNat)

/-- The similarity array actually ranked: `cosine_similarities` after the
filter-masking step of `recommend_movies` (`if filters:` dict truthiness,
then `if filtered_indices:` list truthiness, then zeroing the mask). -/
def effSims (movies : List Movie) (sims : Nat → ℚ) (filters : Option Filters) :
    Nat → ℚ :=
  match filters with
  | none => sims
  | some f =>
    if f.isEmpty then sims
    else
      let keep := apply_filters movies f
      if keep.isEmpty then sims else fun i => if i ∈ keep then sims i else 0

/-- The indices that survive
`top_indices = cosine_similarities.argsort()[-n:][::-1]` followed by the
`cosine_similarities[idx] > 0` test of the result loop. -/
def selectedIndices (movies : List Movie) (sims : Nat → ℚ) (n : Int)
    (filters : Option Filters) : List Nat :=
  ((pyTail (argsort movies.length (effSims movies sims filters)) (-n)).reverse).filter
    (fun i => decide (0 < effSims movies sims filters i))

/-- The result dict built for one surviving index. -/
def mkRec (m : Movie) (score : ℚ) : RecResult :=
  { id := m.id, title := m.title, overview := m.overview,
    poster_path := m.poster_path,
    release_date := m.release_date.getD (m.first_air_date.getD ""),
    similarity_score := score,
    content_type := m.content_type.getD "movie" }

/-- `MovieRecommender.recommend_movies`, parametrised by the cosine
similarity scores (the sklearn vectorizer/cosine computation is external
to the repository; the query-side model appears below as `queryVec` and
`dotSim`). -/
def recommend_movies (movies : List Movie) (sims : Nat → ℚ) (n : Int)
    (filters : Option Filters) : List RecResult :=
  (selectedIndices movies sims n filters).map
    (fun i => mkRec (movies.getD i default) (effSims movies sims filters i))

/-! ### The document normalizer `_preprocess_text`

The NLTK stop-word list, `word_tokenize` and `WordNetLemmatizer` are
external library data, so the pipeline is parametrised by a stop-word set
`S` and a lemma lookup `L`; tokenization is modelled as whitespace
splitting (after the two regex substitutions the text consists of word
characters and whitespace only). -/

/-- Python regex `\w` (ASCII model): letters, digits and underscore. -/
def isWordChar (c : Char) : Bool := c.isAlphanum || c == '_'

/-- Python regex `\s` (ASCII model): the whitespace characters. -/
def isWsChar (c : Char) : Bool := c == ' ' || c == '\t' || c == '\n' || c == '\r'

/-- Python regex `\d`: a decimal digit. -/
def isDigitChar (c : Char) : Bool := c.isDigit

/-- The substitution `re.sub(r'[^\w\s]', ' ', text)`. -/
def stripSpecial (l : List Char) : List Char :=
  l.map (fun c => if !isWordChar c && !isWsChar c then ' ' else c)

/-- Worker for `re.sub(r'\d+', ' ', text)`: the flag records whether the
previous character belonged to a digit run (whose replacement space was
already emitted). -/
def stripDigitsAux : Bool → List Char → List Char
  | _, [] => []
  | inRun, c :: cs =>
    if isDigitChar c then
      if inRun then stripDigitsAux true cs else ' ' :: stripDigitsAux true cs
    else c :: stripDigitsAux false cs

/-- The substitution `re.sub(r'\d+', ' ', text)`: every maximal digit run
becomes a single space. -/
def stripDigits (l : List Char) : List Char := stripDigitsAux false l

/-- Splits a character list at whitespace, keeping the (possibly empty)
chunks between separators; the result is always non-empty. -/
def chunks : List Char → List (List Char)
  | [] => [[]]
  | c :: cs =>
    match chunks cs with
    | [] => [[c]]
    | t :: ts => if isWsChar c then [] :: t :: ts else (c :: t) :: ts

/-- `word_tokenize`, modelled as whitespace splitting: the non-empty
maximal runs of non-whitespace characters. -/
def tokens (l : List Char) : List (List Char) :=
  (chunks l).filter (fun t => !t.isEmpty)

/-- `' '.join(tokens)`. -/
def joinToks : List (List Char) → List Char
  | [] => []
  | [t] => t
  | t :: ts => t ++ ' ' :: joinToks ts

/-- `MovieRecommender._preprocess_text` on the character list of the
input: lower-case, strip special characters, strip digit runs, tokenize,
drop stop words, lemmatize, join with single spaces.  Empty input is
returned unchanged (`if not text: return ""`). -/
def preprocessChars (S : List (List Char)) (L : List Char → List Char)
    (text : List Char) : List Char :=
  if text.isEmpty then []
  else
    joinToks (((tokens (stripDigits (stripSpecial (text.map Char.toLower)))).filter
      (fun t => !S.contains t)).map L)

/-- `MovieRecommender._preprocess_text`, parametrised by the NLTK
stop-word set `S` and lemmatizer `L`. -/
def _preprocess_text (S : List (List Char)) (L : List Char → List Char)
    (s : String) : String :=
  String.mk (preprocessChars S L s.data)

/-- A character that can occur in a token of a normalized document: a
word character that is neither a digit nor whitespace, fixed by
lower-casing. -/
def goodChar (c : Char) : Bool :=
  isWordChar c && !isDigitChar c && !isWsChar c && (c.toLower == c)

/-- A well-formed normalized token: non-empty and made of `goodChar`s. -/
def goodTok (t : List Char) : Prop := t ≠ [] ∧ ∀ c ∈ t, goodChar c = true

/-! ### The query-side similarity model

Modelled from the spec (4.3): the `TfidfVectorizer` and
`cosine_similarity` calls are sklearn internals, absent from the
repository. -/

/-- Modelled from the spec: query-time vectorization into the built
vector space — one coordinate per vocabulary term, the term's frequency
in the normalized query times its corpus idf weight; terms outside the
vocabulary are ignored. -/
def queryVec (vocab : List (List Char)) (idf : List Char → ℚ)
    (pq : List Char) : List ℚ :=
  vocab.map (fun t => ((tokens pq).count t : ℚ) * idf t)

/-- Modelled from the spec: cosine similarity of the query vector with
one document vector.  The true cosine divides the dot product by the two
L2 norms (sklearn maps a zero vector to zero similarity), so it is zero,
positive or negative exactly when this raw dot product is — the only
property of an individual score the claims use. -/
def dotSim (a b : List ℚ) : ℚ := ((a.zip b).map (fun p => p.1 * p.2)).sum

/-! ### Concrete catalog entries for counterexamples and witnesses -/

/-- An English-language movie from 2008. -/
def mvEn : Movie :=
  { id := 1, title := "The Dark Knight", overview := "o1", poster_path := "p1",
    release_date := some "2008-07-18", genres := ["action"],
    language := some "en", content_type := some "movie" }

/-- A Hindi-language movie from 1995. -/
def mvHi : Movie :=
  { id := 2, title := "Dilwale Dulhania Le Jayenge", overview := "o2",
    poster_path := "p2", release_date := some "1995-10-20",
    genres := ["romance"], language := some "hi", content_type := some "movie" }

/-- A Tamil-language movie from 2015. -/
def mvTa : Movie :=
  { id := 3, title := "Baahubali", overview := "o3", poster_path := "p3",
    release_date := some "2015-07-10", genres := ["action"],
    language := some "ta", content_type := some "movie" }

/-- A movie whose release date's first four characters do not parse as an
integer. -/
def mvBad : Movie :=
  { id := 4, title := "Undated", overview := "o4", poster_path := "p4",
    release_date := some "abcd-01-01", genres := ["drama"],
    language := some "en", content_type := some "movie" }

/-- A one-term vocabulary not containing any token of the witness query. -/
def c9wVocab : List (List Char) := [['m', 'o', 'v', 'i', 'e']]

/-- Document vectors for the C9 witness. -/
def c9wDocVecs : Nat → List ℚ := fun _ => [1]

/-- The witness query's similarity scores against `c9wDocVecs`. -/
def c9wSims : Nat → ℚ := fun i =>
  dotSim (queryVec c9wVocab (fun _ => 1) (_preprocess_text [] id "hello world").data)
    (c9wDocVecs i)

/-- The score function of the C5 witness: scores 0, 1, 2, 3 on a
four-entry catalog. -/
def c5wSims : Nat → ℚ := fun i =>
  if i = 0 then 0 else if i = 1 then 1 else if i = 2 then 2 else 3

/-! ### Basic facts about the ranking pipeline -/

theorem argsort_perm (len : Nat) (s : Nat → ℚ) :
    List.Perm (argsort len s) (List.range len) :=
  List.perm_insertionSort _ _

theorem argsort_sorted (len : Nat) (s : Nat → ℚ) :
    List.Pairwise (leA s) (argsort len s) :=
  List.sorted_insertionSort _ _

theorem pyTail_eq_drop {α : Type} (l : List α) (st : Int) :
    ∃ k, pyTail l st = l.drop k := by
  unfold pyTail
  split
  · exact ⟨_, rfl⟩
  · exact ⟨_, rfl⟩

theorem effSims_none (movies : List Movie) (sims : Nat → ℚ) :
    effSims movies sims none = sims := rfl

theorem getD_mem {α : Type} [Inhabited α] {l : List α} {i : Nat}
    (h : i < l.length) : l.getD i default ∈ l := by
  rw [List.getD_eq_getElem l default h]
  exact List.getElem_mem h

theorem effSims_of_isEmpty {movies : List Movie} {sims : Nat → ℚ}
    {f : Filters} (h : f.isEmpty = true) :
    effSims movies sims (some f) = sims := by
  unfold effSims
  simp [h]

theorem effSims_of_empty_keep {movies : List Movie} {sims : Nat → ℚ}
    {f : Filters} (h : apply_filters movies f = []) :
    effSims movies sims (some f) = sims := by
  unfold effSims
  by_cases hf : f.isEmpty <;> simp [hf, h]

theorem effSims_masked {movies : List Movie} {sims : Nat → ℚ} {f : Filters}
    (hf : f.isEmpty = false) (hk : (apply_filters movies f).isEmpty = false) :
    effSims movies sims (some f) =
      fun i => if i ∈ apply_filters movies f then sims i else 0 := by
  unfold effSims
  simp [hf, hk]

theorem mem_apply_filters {movies : List Movie} {f : Filters} {i : Nat} :
    i ∈ apply_filters movies f ↔
      i < movies.length ∧ movieMatches f (movies.getD i default) = true := by
  unfold apply_filters
  simp [List.mem_filter, List.mem_range]

theorem mem_selectedIndices {movies : List Movie} {sims : Nat → ℚ} {n : Int}
    {filters : Option Filters} {i : Nat}
    (h : i ∈ selectedIndices movies sims n filters) :
    i < movies.length ∧ 0 < effSims movies sims filters i := by
  unfold selectedIndices at h
  obtain ⟨k, hk⟩ := pyTail_eq_drop
    (argsort movies.length (effSims movies sims filters)) (-n)
  rw [hk] at h
  rw [List.mem_filter] at h
  obtain ⟨h1, h2⟩ := h
  rw [List.mem_reverse] at h1
  have h3 : i ∈ argsort movies.length (effSims movies sims filters) :=
    (List.drop_sublist k _).mem h1
  have h4 : i < movies.length :=
    List.mem_range.mp ((argsort_perm _ _).mem_iff.mp h3)
  exact ⟨h4, of_decide_eq_true h2⟩

theorem selected_pairwise (movies : List Movie) (sims : Nat → ℚ) (n : Int)
    (filters : Option Filters) :
    List.Pairwise (fun i j => leA (effSims movies sims filters) j i)
      (selectedIndices movies sims n filters) := by
  unfold selectedIndices
  obtain ⟨k, hk⟩ := pyTail_eq_drop
    (argsort movies.length (effSims movies sims filters)) (-n)
  rw [hk]
  apply List.Pairwise.filter
  rw [List.pairwise_reverse]
  exact List.Pairwise.sublist (List.drop_sublist k _) (argsort_sorted _ _)

theorem selected_nodup (movies : List Movie) (sims : Nat → ℚ) (n : Int)
    (filters : Option Filters) :
    (selectedIndices movies sims n filters).Nodup := by
  unfold selectedIndices
  obtain ⟨k, hk⟩ := pyTail_eq_drop
    (argsort movies.length (effSims movies sims filters)) (-n)
  rw [hk]
  apply List.Nodup.filter
  rw [List.nodup_reverse]
  exact ((argsort_perm _ _).nodup_iff.mpr (List.nodup_range _)).sublist
    (List.drop_sublist k _)

/-! ### C1 -/

/-- C1 fails as stated: with the genre filter "horror", which no catalog
entry matches, `recommend_movies` returns both entries anyway — the
masking step is skipped when the matching index set is empty, so a result
need not satisfy the filters. -/
theorem c1_counterexample :
    recommend_movies [mvEn, mvHi] (fun _ => 1) 2 (some { genre := some "horror" }) =
      [mkRec mvHi 1, mkRec mvEn 1] ∧
    movieMatches { genre := some "horror" } mvEn = false ∧
    movieMatches { genre := some "horror" } mvHi = false := by decide

/-- C1 (amended): for every query, every n and every non-empty filter set
whose matching index set is non-empty, every entry returned by
`recommend_movies` satisfies the filters — the masked score of every
non-matching index is exactly zero and zero-score entries are dropped. -/
theorem c1_results_match_filters (movies : List Movie) (sims : Nat → ℚ)
    (n : Int) (f : Filters) (hf : f.isEmpty = false)
    (hk : (apply_filters movies f).isEmpty = false) :
    ∀ r ∈ recommend_movies movies sims n (some f),
      ∃ i, i < movies.length ∧ movieMatches f (movies.getD i default) = true ∧
        r = mkRec (movies.getD i default) (effSims movies sims (some f) i) := by
  intro r hr
  unfold recommend_movies at hr
  obtain ⟨i, hi, rfl⟩ := List.mem_map.mp hr
  have hsel := mem_selectedIndices hi
  refine ⟨i, hsel.1, ?_, rfl⟩
  have hpos := hsel.2
  rw [effSims_masked hf hk] at hpos
  by_cases hmem : i ∈ apply_filters movies f
  · exact (mem_apply_filters.mp hmem).2
  · simp [hmem] at hpos

/-- Witness for C1 (amended): the language filter hi on a two-entry
catalog returns only the Hindi entry, which matches it. -/
theorem c1_witness :
    ∃ i, i < ([mvEn, mvHi] : List Movie).length ∧
      movieMatches { language := some (.single "hi") }
        (([mvEn, mvHi] : List Movie).getD i default) = true ∧
      mkRec mvHi 1 = mkRec (([mvEn, mvHi] : List Movie).getD i default)
        (effSims [mvEn, mvHi] (fun _ => 1)
          (some { language := some (.single "hi") }) i) :=
  c1_results_match_filters [mvEn, mvHi] (fun _ => 1) 5
    { language := some (.single "hi") } (by decide) (by decide)
    (mkRec mvHi 1) (by decide)

/-! ### C2 -/

/-- C2 fails as stated: with the language filter fr, which no catalog
entry matches, `recommend_movies` does not return an empty sequence. -/
theorem c2_counterexample :
    movieMatches { language := some (.single "fr") } mvEn = false ∧
    recommend_movies [mvEn] (fun _ => 1) 5
      (some { language := some (.single "fr") }) ≠ [] := by decide

/-- C2 (amended): if no catalog entry matches the filter set, the filters
are silently ignored — `recommend_movies` returns the unfiltered results
(empty only when those are empty), not necessarily an empty sequence. -/
theorem c2_no_match_ignores_filters (movies : List Movie) (sims : Nat → ℚ)
    (n : Int) (f : Filters) (h : ∀ m ∈ movies, movieMatches f m = false) :
    recommend_movies movies sims n (some f) =
      recommend_movies movies sims n none := by
  have hap : apply_filters movies f = [] := by
    unfold apply_filters
    rw [List.filter_eq_nil_iff]
    intro i hi
    have hlen := List.mem_range.mp hi
    have hx := h _ (getD_mem hlen)
    simp only [List.getD, List.get?_eq_getElem?] at hx
    simp [hx]
  unfold recommend_movies selectedIndices
  rw [effSims_of_empty_keep hap, effSims_none]

/-- Witness for C2 (amended): a content-type filter matched by nothing on
a one-entry catalog gives the unfiltered output. -/
theorem c2_witness :
    recommend_movies [mvHi] (fun _ => 1) 4 (some { content_type := some "tv" }) =
      recommend_movies [mvHi] (fun _ => 1) 4 none :=
  c2_no_match_ignores_filters [mvHi] (fun _ => 1) 4
    { content_type := some "tv" } (by decide)

/-! ### C3 -/

/-- C3: when `_apply_filters` computes an empty matching index set, the
guard `if filtered_indices:` skips the masking step, so
`recommend_movies` returns exactly the unfiltered ordered results — an
unsatisfiable filter set is silently ignored. -/
theorem c3_empty_match_set_ignores_filters (movies : List Movie)
    (sims : Nat → ℚ) (n : Int) (f : Filters)
    (h : apply_filters movies f = []) :
    recommend_movies movies sims n (some f) =
      recommend_movies movies sims n none := by
  unfold recommend_movies selectedIndices
  rw [effSims_of_empty_keep h, effSims_none]

/-- Witness for C3: a language filter matched by nothing on a one-entry
catalog gives the unfiltered output. -/
theorem c3_witness :
    recommend_movies [mvEn] (fun _ => 1) 3 (some { language := some (.single "ta") }) =
      recommend_movies [mvEn] (fun _ => 1) 3 none :=
  c3_empty_match_set_ignores_filters [mvEn] (fun _ => 1) 3
    { language := some (.single "ta") } (by decide)

/-! ### C4 -/

/-- C4 is right about the spec and wrong about the code: the language
check compares `movie.get('language') != filters['language']` with plain
equality, and a Python string never equals a list, so a filter carrying a
set of codes (as `extract_keywords_from_query` produces for "south
indian") matches no entry at all — membership is never tested. -/
theorem c4_list_language_filter_never_matches (f : Filters) (m : Movie)
    (codes : List String) (h : f.language = some (.multi codes)) :
    movieMatches f m = false := by
  unfold movieMatches
  rw [h]
  simp [langEqPy]

/-- Witness for C4: an entry with language ta fails the filter carrying
the set of codes that "south indian" is interpreted to. -/
theorem c4_witness :
    movieMatches { language := some (.multi ["ta", "te", "ml", "kn"]) } mvTa = false :=
  c4_list_language_filter_never_matches _ mvTa ["ta", "te", "ml", "kn"] rfl

/-! ### C5 -/

/-- C5 fails as stated: `argsort()[-0:]` slices the whole array, so with
n = 0 `recommend_movies` returns every positive-score entry instead of an
empty sequence. -/
theorem c5_counterexample :
    recommend_movies [mvEn] (fun _ => 1) 0 none ≠ [] := by decide

/-- C5 (amended): n <= 0 does not yield an empty sequence.  For n = 0
the slice `[-n:]` keeps the whole score array, so `recommend_movies`
returns one result per catalog index with positive (masked) score; for
n < 0 the slice `[-n:] = [|n|:]` drops the |n| lowest-ranked positions
of the ascending argsort, so the call returns an initial segment of the
n = 0 ranking — the highest-scoring positive entries, still in
non-increasing score order. -/
theorem c5_nonpositive_n_behavior (movies : List Movie) (sims : Nat → ℚ)
    (filters : Option Filters) (n : Int) (hn : n ≤ 0) :
    (recommend_movies movies sims 0 filters).length =
      ((List.range movies.length).filter
        (fun i => decide (0 < effSims movies sims filters i))).length ∧
    (∃ rest, recommend_movies movies sims 0 filters =
      recommend_movies movies sims n filters ++ rest) ∧
    List.Pairwise (fun a b => b.similarity_score ≤ a.similarity_score)
      (recommend_movies movies sims n filters) := by
  have h0 : pyTail (argsort movies.length (effSims movies sims filters))
      (-(0 : Int)) = argsort movies.length (effSims movies sims filters) := by
    norm_num [pyTail]
  refine ⟨?_, ?_, ?_⟩
  · unfold recommend_movies selectedIndices
    rw [List.length_map]
    rw [h0, ← List.countP_eq_length_filter, ← List.countP_eq_length_filter]
    exact ((List.reverse_perm _).trans (argsort_perm _ _)).countP_eq _
  · have hk : pyTail (argsort movies.length (effSims movies sims filters)) (-n) =
        (argsort movies.length (effSims movies sims filters)).drop (-n).toNat := by
      unfold pyTail
      rw [if_pos (by omega)]
    refine ⟨(List.filter (fun i => decide (0 < effSims movies sims filters i))
      ((argsort movies.length (effSims movies sims filters)).take
        (-n).toNat).reverse).map
      (fun i => mkRec (movies.getD i default) (effSims movies sims filters i)), ?_⟩
    unfold recommend_movies selectedIndices
    rw [hk, h0]
    have hsplit : (argsort movies.length (effSims movies sims filters)).reverse =
        ((argsort movies.length (effSims movies sims filters)).drop
          (-n).toNat).reverse ++
        ((argsort movies.length (effSims movies sims filters)).take
          (-n).toNat).reverse := by
      rw [← List.reverse_append, List.take_append_drop]
    rw [hsplit, List.filter_append, List.map_append]
  · unfold recommend_movies
    rw [List.pairwise_map]
    apply (selected_pairwise movies sims n filters).imp
    intro a b hab
    rcases hab with hlt | ⟨heq, _⟩
    · exact le_of_lt hlt
    · exact le_of_eq heq

/-- Witness for C5 (amended): with scores 0..3 and n = -2, the call
drops the two lowest-ranked positions and returns an initial segment of
the full n = 0 ranking. -/
theorem c5_witness :
    ∃ rest, recommend_movies [mvEn, mvHi, mvTa, mvBad] c5wSims 0 none =
      recommend_movies [mvEn, mvHi, mvTa, mvBad] c5wSims (-2) none ++ rest :=
  (c5_nonpositive_n_behavior [mvEn, mvHi, mvTa, mvBad] c5wSims none (-2)
    (by decide)).2.1

/-! ### C6 -/

/-- C6 fails as stated: with two entries of equal score and n = 1, the
returned entry is the one at the higher catalog index (id 2), not the
lower — ascending argsort followed by reversal puts tied higher indices
first. -/
theorem c6_counterexample :
    mvEn.id = 1 ∧ mvHi.id = 2 ∧
    (recommend_movies [mvEn, mvHi] (fun _ => 1) 1 none).map (fun r => r.id) =
      [2] := by decide

/-- C6 (amended): among tied scores the higher original index wins — it
is preferred for inclusion in the top n and appears before a tied lower
index in the selection order (modelling `numpy.argsort` as a stable
ascending sort, as its insertion sort on small arrays behaves). -/
theorem c6_ties_higher_index_first (movies : List Movie) (sims : Nat → ℚ)
    (n : Int) (filters : Option Filters) :
    List.Pairwise
      (fun i j => effSims movies sims filters j < effSims movies sims filters i ∨
        (effSims movies sims filters i = effSims movies sims filters j ∧ j < i))
      (selectedIndices movies sims n filters) ∧
    (∀ i j : Nat, i < j → j < movies.length →
      effSims movies sims filters i = effSims movies sims filters j →
      i ∈ selectedIndices movies sims n filters →
      j ∈ selectedIndices movies sims n filters) := by
  constructor
  · have h1 := (selected_pairwise movies sims n filters).and
      (selected_nodup movies sims n filters)
    apply h1.imp
    intro a b hab
    rcases hab with ⟨hlt | ⟨heq, hle⟩, hne⟩
    · exact Or.inl hlt
    · exact Or.inr ⟨heq.symm, lt_of_le_of_ne hle (Ne.symm hne)⟩
  · intro i j hij hjlen heq hi
    unfold selectedIndices at hi ⊢
    obtain ⟨k, hk⟩ := pyTail_eq_drop
      (argsort movies.length (effSims movies sims filters)) (-n)
    rw [hk] at hi ⊢
    rw [List.mem_filter] at hi ⊢
    obtain ⟨hi1, hi2⟩ := hi
    rw [List.mem_reverse] at hi1
    constructor
    · rw [List.mem_reverse]
      have hasc : j ∈ argsort movies.length (effSims movies sims filters) :=
        (argsort_perm _ _).mem_iff.mpr (List.mem_range.mpr hjlen)
      have hsplit :=
        (List.take_append_drop k
          (argsort movies.length (effSims movies sims filters))).symm
      rw [hsplit] at hasc
      have hpw := argsort_sorted movies.length (effSims movies sims filters)
      rw [hsplit] at hpw
      rcases List.mem_append.mp hasc with hjt | hjd
      · exfalso
        have hji := (List.pairwise_append.mp hpw).2.2 j hjt i hi1
        rcases hji with hlt | ⟨hseq, hle⟩
        · rw [heq] at hlt
          exact lt_irrefl _ hlt
        · omega
      · exact hjd
    · rw [decide_eq_true_iff] at hi2 ⊢
      rw [← heq]
      exact hi2

/-- Witness for C6 (amended): on a three-entry catalog with all scores
tied and n = 2, index 1 being selected forces the tied higher index 2 to
be selected as well. -/
theorem c6_witness :
    2 ∈ selectedIndices [mvEn, mvHi, mvTa] (fun _ => 1) 2 none :=
  (c6_ties_higher_index_first [mvEn, mvHi, mvTa] (fun _ => 1) 2 none).2
    1 2 (by decide) (by decide) (by decide) (by decide)

/-! ### C7 -/

/-- C7 fails as stated: for n = 0 the call returns two results, so the
bound `len(rank(q, n, {})) <= n` does not hold for every n. -/
theorem c7_counterexample :
    (recommend_movies [mvEn, mvHi] (fun _ => mkRat 1 2) 0 none).length = 2 := by
  decide

/-- C7 (amended): for every n >= 1 the unfiltered call returns at most n
results, and for every n the similarity scores of the returned sequence
are non-increasing from first to last. -/
theorem c7_topn_bound_and_sorted (movies : List Movie) (sims : Nat → ℚ)
    (n : Int) :
    (1 ≤ n → ((recommend_movies movies sims n none).length : Int) ≤ n) ∧
    List.Pairwise (fun a b => b.similarity_score ≤ a.similarity_score)
      (recommend_movies movies sims n none) := by
  constructor
  · intro hn
    unfold recommend_movies selectedIndices
    rw [List.length_map]
    have hlenasc : (argsort movies.length (effSims movies sims none)).length =
        movies.length :=
      (argsort_perm _ _).length_eq.trans (List.length_range _)
    have htail : (pyTail (argsort movies.length (effSims movies sims none))
        (-n)).length ≤ n.toNat := by
      unfold pyTail
      split
      · next hcond => omega
      · rw [List.length_drop, hlenasc]
        omega
    have hfil := List.length_filter_le
      (fun i => decide (0 < effSims movies sims none i))
      ((pyTail (argsort movies.length (effSims movies sims none)) (-n)).reverse)
    rw [List.length_reverse] at hfil
    omega
  · unfold recommend_movies
    rw [List.pairwise_map]
    apply (selected_pairwise movies sims n none).imp
    intro a b hab
    rcases hab with hlt | ⟨heq, _⟩
    · exact le_of_lt hlt
    · exact le_of_eq heq

/-- Witness for C7 (amended): with n = 1 on a two-entry catalog the
returned sequence has length at most 1. -/
theorem c7_witness :
    ((recommend_movies [mvEn, mvHi] (fun _ => 1) 1 none).length : Int) ≤ 1 :=
  (c7_topn_bound_and_sorted [mvEn, mvHi] (fun _ => 1) 1).1 (by decide)

/-! ### C9 -/

theorem queryVec_zero {vocab : List (List Char)} {idf : List Char → ℚ}
    {pq : List Char} (h : ∀ t ∈ tokens pq, ¬ t ∈ vocab) :
    ∀ x ∈ queryVec vocab idf pq, x = 0 := by
  intro x hx
  unfold queryVec at hx
  obtain ⟨t, ht, rfl⟩ := List.mem_map.mp hx
  have hnot : ¬ t ∈ tokens pq := fun hmem => h t hmem ht
  rw [List.count_eq_zero.mpr hnot]
  simp

theorem dotSim_zero_left {a : List ℚ} (b : List ℚ) (h : ∀ x ∈ a, x = 0) :
    dotSim a b = 0 := by
  unfold dotSim
  induction a generalizing b with
  | nil => simp
  | cons x xs ih =>
    cases b with
    | nil => simp
    | cons y ys =>
      rw [List.zip_cons_cons, List.map_cons, List.sum_cons]
      rw [h x (List.mem_cons_self _ _)]
      rw [ih ys (fun z hz => h z (List.mem_cons_of_mem _ hz))]
      simp

theorem effSims_zero {movies : List Movie} {sims : Nat → ℚ}
    {filters : Option Filters} (h : ∀ i, sims i = 0) :
    ∀ i, effSims movies sims filters i = 0 := by
  intro i
  cases filters with
  | none => exact h i
  | some f =>
    by_cases hf : f.isEmpty
    · rw [effSims_of_isEmpty hf]
      exact h i
    · have hf' : f.isEmpty = false := by simpa using hf
      by_cases hk : (apply_filters movies f).isEmpty
      · rw [effSims_of_empty_keep (List.isEmpty_iff.mp hk)]
        exact h i
      · have hk' : (apply_filters movies f).isEmpty = false := by simpa using hk
        rw [effSims_masked hf' hk']
        simp [h i]

theorem recommend_zero {movies : List Movie} {sims : Nat → ℚ} {n : Int}
    {filters : Option Filters} (h : ∀ i, sims i = 0) :
    recommend_movies movies sims n filters = [] := by
  unfold recommend_movies selectedIndices
  have hfil : List.filter (fun i => decide (0 < effSims movies sims filters i))
      ((pyTail (argsort movies.length (effSims movies sims filters)) (-n)).reverse) = [] := by
    rw [List.filter_eq_nil_iff]
    intro i _
    simp [effSims_zero h i]
  rw [hfil]
  rfl

/-- C9: a query whose normalization contains no vocabulary term
vectorizes to the zero vector, the zero vector has zero similarity with
every catalog document, and `recommend_movies` therefore returns an empty
sequence for every n and every filter set. -/
theorem c9_unknown_terms_yield_empty (movies : List Movie)
    (docVecs : Nat → List ℚ) (vocab : List (List Char)) (idf : List Char → ℚ)
    (S : List (List Char)) (L : List Char → List Char) (q : String) (n : Int)
    (filters : Option Filters)
    (hq : ∀ t ∈ tokens (_preprocess_text S L q).data, ¬ t ∈ vocab) :
    (∀ x ∈ queryVec vocab idf (_preprocess_text S L q).data, x = 0) ∧
    (∀ i, dotSim (queryVec vocab idf (_preprocess_text S L q).data) (docVecs i) = 0) ∧
    recommend_movies movies
      (fun i => dotSim (queryVec vocab idf (_preprocess_text S L q).data) (docVecs i))
      n filters = [] := by
  have h1 : ∀ x ∈ queryVec vocab idf (_preprocess_text S L q).data, x = 0 :=
    queryVec_zero hq
  exact ⟨h1, fun i => dotSim_zero_left _ h1,
    recommend_zero (fun i => dotSim_zero_left _ h1)⟩

/-- Witness for C9: the query "hello world" against a vocabulary
containing only "movie" returns no results. -/
theorem c9_witness : recommend_movies [mvEn] c9wSims 3 none = [] :=
  (c9_unknown_terms_yield_empty [mvEn] c9wDocVecs c9wVocab (fun _ => 1)
    [] id "hello world" 3 none (by decide)).2.2

/-! ### C10 -/

/-- C10 fails as stated: an entry whose date's first four characters do
not parse as an integer is given effective year 0 (the `except
ValueError: pass` leaves the initial value), and therefore does match any
time-period range containing 0, such as [0, 3000]. -/
theorem c10_counterexample :
    tpYearParsed mvBad = none ∧
    movieMatches { time_period := some (0, 3000) } mvBad = true := by decide

theorem tpYear_of_unparsable {m : Movie} (h : tpYearParsed m = none) :
    tpYear m = 0 := by
  unfold tpYearParsed at h
  unfold tpYear
  by_cases h1 : strTruthy m.release_date
  · rw [if_pos h1] at h ⊢
    rw [h]
    rfl
  · rw [if_neg h1] at h ⊢
    by_cases h2 : strTruthy m.first_air_date
    · rw [if_pos h2] at h ⊢
      rw [h]
      rfl
    · rw [if_neg h2]

/-- C10 (amended): an entry with unparsable or missing effective year is
treated as year 0, so it matches a time-period filter `[start, end]`
exactly when `start <= 0 <= end` — in particular it never matches a range
with positive start, but does match ranges containing 0. -/
theorem c10_unparsable_year_matches_iff (m : Movie) (a b : Int)
    (h : tpYearParsed m = none) :
    movieMatches { time_period := some (a, b) } m =
      (decide (a ≤ 0) && decide (0 ≤ b)) := by
  unfold movieMatches
  rw [tpYear_of_unparsable h]
  simp

/-- Witness for C10 (amended): the unparsable-dated entry matches the
range [-5, 5]. -/
theorem c10_witness :
    movieMatches { time_period := some (-5, 5) } mvBad =
      (decide ((-5 : Int) ≤ 0) && decide ((0 : Int) ≤ 5)) :=
  c10_unparsable_year_matches_iff mvBad (-5) 5 (by decide)

/-! ### C8: facts about the normalization pipeline -/

theorem map_self {α : Type} (l : List α) (f : α → α) (h : ∀ a ∈ l, f a = a) :
    l.map f = l := by
  induction l with
  | nil => rfl
  | cons x xs ih =>
    rw [List.map_cons, h x (List.mem_cons_self _ _),
      ih (fun a ha => h a (List.mem_cons_of_mem _ ha))]

theorem chunks_ne_nil (l : List Char) : chunks l ≠ [] := by
  cases l with
  | nil => simp [chunks]
  | cons c cs =>
    unfold chunks
    cases h : chunks cs with
    | nil => simp
    | cons t ts => by_cases hw : isWsChar c <;> simp [hw]

theorem chunks_cons (c : Char) (cs : List Char) (t : List Char)
    (ts : List (List Char)) (h : chunks cs = t :: ts) :
    chunks (c :: cs) = if isWsChar c then [] :: t :: ts else (c :: t) :: ts := by
  unfold chunks
  rw [h]

theorem chunks_append_token (t l : List Char)
    (hw : ∀ c ∈ t, isWsChar c = false) {h : List Char} {hs : List (List Char)}
    (hl : chunks l = h :: hs) : chunks (t ++ l) = (t ++ h) :: hs := by
  induction t with
  | nil => simpa using hl
  | cons c cs ih =>
    have hcs := ih (fun x hx => hw x (List.mem_cons_of_mem _ hx))
    rw [List.cons_append, chunks_cons c _ _ _ hcs,
      if_neg (by simp [hw c (List.mem_cons_self _ _)])]
    simp

theorem tokens_nil : tokens [] = [] := by simp [tokens, chunks]

theorem joinToks_cons_cons (t u : List Char) (ts : List (List Char)) :
    joinToks (t :: u :: ts) = t ++ ' ' :: joinToks (u :: ts) := rfl

theorem tokens_joinToks (ts : List (List Char))
    (h : ∀ t ∈ ts, t ≠ [] ∧ ∀ c ∈ t, isWsChar c = false) :
    tokens (joinToks ts) = ts := by
  induction ts with
  | nil => simpa [joinToks] using tokens_nil
  | cons t rest ih =>
    have ht := h t (List.mem_cons_self _ _)
    cases rest with
    | nil =>
      have hch : chunks (t ++ []) = (t ++ []) :: [] :=
        chunks_append_token t [] ht.2 (by simp [chunks])
      rw [List.append_nil] at hch
      show tokens t = [t]
      unfold tokens
      rw [hch]
      simp [ht.1]
    | cons u us =>
      have hrest := ih (fun v hv => h v (List.mem_cons_of_mem _ hv))
      cases hz : chunks (joinToks (u :: us)) with
      | nil => exact absurd hz (chunks_ne_nil _)
      | cons z zs =>
        have hsp : chunks (' ' :: joinToks (u :: us)) = [] :: z :: zs := by
          rw [chunks_cons _ _ _ _ hz, if_pos (by decide)]
        have hch : chunks (t ++ ' ' :: joinToks (u :: us)) = (t ++ []) :: z :: zs :=
          chunks_append_token t _ ht.2 hsp
        rw [List.append_nil] at hch
        rw [joinToks_cons_cons]
        unfold tokens
        rw [hch]
        have hzs : List.filter (fun v => !v.isEmpty) (z :: zs) = u :: us := by
          have hres : tokens (joinToks (u :: us)) = u :: us := hrest
          unfold tokens at hres
          rw [hz] at hres
          exact hres
        rw [List.filter_cons_of_pos (by simpa using ht.1), hzs]

theorem joinToks_ne_nil {t : List Char} {ts : List (List Char)} (h : t ≠ []) :
    joinToks (t :: ts) ≠ [] := by
  cases ts with
  | nil => simpa [joinToks] using h
  | cons u us => simp [joinToks_cons_cons, h]

theorem mem_joinToks {c : Char} {ts : List (List Char)}
    (h : c ∈ joinToks ts) : c = ' ' ∨ ∃ t ∈ ts, c ∈ t := by
  induction ts with
  | nil => simp [joinToks] at h
  | cons t rest ih =>
    cases rest with
    | nil =>
      exact Or.inr ⟨t, List.mem_cons_self _ _, h⟩
    | cons u us =>
      rw [joinToks_cons_cons] at h
      rcases List.mem_append.mp h with h1 | h2
      · exact Or.inr ⟨t, List.mem_cons_self _ _, h1⟩
      · rcases List.mem_cons.mp h2 with h3 | h4
        · exact Or.inl h3
        · rcases ih h4 with h5 | ⟨v, hv1, hv2⟩
          · exact Or.inl h5
          · exact Or.inr ⟨v, List.mem_cons_of_mem _ hv1, hv2⟩

theorem stripDigitsAux_of_no_digits (b : Bool) (l : List Char)
    (h : ∀ c ∈ l, isDigitChar c = false) : stripDigitsAux b l = l := by
  induction l generalizing b with
  | nil => rfl
  | cons c cs ih =>
    unfold stripDigitsAux
    rw [h c (List.mem_cons_self _ _)]
    simp [ih false (fun x hx => h x (List.mem_cons_of_mem _ hx))]

theorem mem_stripSpecial {c : Char} {l : List Char} (h : c ∈ stripSpecial l) :
    (c = ' ' ∨ c ∈ l) ∧ (isWordChar c || isWsChar c) = true := by
  unfold stripSpecial at h
  obtain ⟨c0, hc0, rfl⟩ := List.mem_map.mp h
  cases hw : isWordChar c0 <;> cases hs : isWsChar c0 <;>
    (simp [hw, hs, hc0]; all_goals decide)

theorem mem_stripDigitsAux {c : Char} {b : Bool} {l : List Char}
    (h : c ∈ stripDigitsAux b l) :
    c = ' ' ∨ (c ∈ l ∧ isDigitChar c = false) := by
  induction l generalizing b with
  | nil => simp [stripDigitsAux] at h
  | cons x xs ih =>
    unfold stripDigitsAux at h
    by_cases hx : isDigitChar x
    · rw [if_pos hx] at h
      by_cases hb : b = true
      · rw [if_pos hb] at h
        rcases ih h with h1 | ⟨h2, h3⟩
        · exact Or.inl h1
        · exact Or.inr ⟨List.mem_cons_of_mem _ h2, h3⟩
      · rw [if_neg hb] at h
        rcases List.mem_cons.mp h with rfl | h2
        · exact Or.inl rfl
        · rcases ih h2 with h3 | ⟨h4, h5⟩
          · exact Or.inl h3
          · exact Or.inr ⟨List.mem_cons_of_mem _ h4, h5⟩
    · rw [if_neg hx] at h
      rcases List.mem_cons.mp h with rfl | h2
      · exact Or.inr ⟨List.mem_cons_self _ _, by simpa using hx⟩
      · rcases ih h2 with h3 | ⟨h4, h5⟩
        · exact Or.inl h3
        · exact Or.inr ⟨List.mem_cons_of_mem _ h4, h5⟩

theorem mem_chunks {t : List Char} {l : List Char} (ht : t ∈ chunks l) :
    ∀ c ∈ t, c ∈ l ∧ isWsChar c = false := by
  induction l generalizing t with
  | nil =>
    simp only [chunks, List.mem_singleton] at ht
    subst ht
    intro c hc
    simp at hc
  | cons x xs ih =>
    cases hcs : chunks xs with
    | nil => exact absurd hcs (chunks_ne_nil xs)
    | cons u us =>
      rw [chunks_cons _ _ _ _ hcs] at ht
      by_cases hx : isWsChar x
      · rw [if_pos hx] at ht
        rcases List.mem_cons.mp ht with rfl | h2
        · intro c hc
          simp at hc
        · intro c hc
          have hm : t ∈ chunks xs := by rw [hcs]; exact h2
          have := ih hm c hc
          exact ⟨List.mem_cons_of_mem _ this.1, this.2⟩
      · rw [if_neg hx] at ht
        rcases List.mem_cons.mp ht with rfl | h2
        · intro c hc
          rcases List.mem_cons.mp hc with rfl | h3
          · exact ⟨List.mem_cons_self _ _, by simpa using hx⟩
          · have hm : u ∈ chunks xs := by rw [hcs]; exact List.mem_cons_self _ _
            have := ih hm c h3
            exact ⟨List.mem_cons_of_mem _ this.1, this.2⟩
        · intro c hc
          have hm : t ∈ chunks xs := by rw [hcs]; exact List.mem_cons_of_mem _ h2
          have := ih hm c hc
          exact ⟨List.mem_cons_of_mem _ this.1, this.2⟩

theorem mem_tokens_good {t : List Char} {l : List Char} (ht : t ∈ tokens l) :
    t ≠ [] ∧ ∀ c ∈ t, c ∈ l ∧ isWsChar c = false := by
  unfold tokens at ht
  rw [List.mem_filter] at ht
  exact ⟨by simpa using ht.2, mem_chunks ht.1⟩

theorem toNat_ofNat_of_valid {m : Nat} (h : m < 55296) :
    (Char.ofNat m).toNat = m := by
  unfold Char.ofNat
  rw [dif_pos (Or.inl h)]
  rfl

theorem toLower_hit {c : Char} (h : 65 ≤ c.toNat ∧ c.toNat ≤ 90) :
    c.toLower = Char.ofNat (c.toNat + 32) := by
  unfold Char.toLower
  rw [if_pos h]

theorem toLower_miss {c : Char} (h : ¬(65 ≤ c.toNat ∧ c.toNat ≤ 90)) :
    c.toLower = c := by
  unfold Char.toLower
  rw [if_neg h]

theorem toLower_toLower (c : Char) : c.toLower.toLower = c.toLower := by
  by_cases h : 65 ≤ c.toNat ∧ c.toNat ≤ 90
  · rw [toLower_hit h]
    have hv : (Char.ofNat (c.toNat + 32)).toNat = c.toNat + 32 :=
      toNat_ofNat_of_valid (by omega)
    apply toLower_miss
    rw [hv]
    omega
  · rw [toLower_miss h, toLower_miss h]

theorem goodChar_spec {c : Char} (h : goodChar c = true) :
    isWordChar c = true ∧ isDigitChar c = false ∧ isWsChar c = false ∧
      c.toLower = c := by
  unfold goodChar at h
  simp only [Bool.and_eq_true, Bool.not_eq_true', beq_iff_eq] at h
  exact ⟨h.1.1.1, h.1.1.2, h.1.2, h.2⟩

theorem goodChar_of (c0 : Char) {c : Char} (he : Char.toLower c0 = c)
    (hw : isWordChar c = true) (hd : isDigitChar c = false)
    (hs : isWsChar c = false) : goodChar c = true := by
  have hfix : c.toLower = c := by
    rw [← he]
    exact toLower_toLower c0
  unfold goodChar
  rw [hw, hd, hs]
  simp [hfix]

theorem tokens_pipeline_good (x : List Char) :
    ∀ t ∈ tokens (stripDigits (stripSpecial (x.map Char.toLower))), goodTok t := by
  intro t ht
  obtain ⟨hne, hch⟩ := mem_tokens_good ht
  refine ⟨hne, ?_⟩
  intro c hc
  obtain ⟨hmem3, hws⟩ := hch c hc
  rcases mem_stripDigitsAux (show c ∈ stripDigitsAux false _ from hmem3) with
    rfl | ⟨hmem2, hdig⟩
  · exact absurd hws (by decide)
  · obtain ⟨hor, hwd⟩ := mem_stripSpecial hmem2
    rcases hor with rfl | hmem1
    · exact absurd hws (by decide)
    · obtain ⟨c0, _, he⟩ := List.mem_map.mp hmem1
      have hw : isWordChar c = true := by
        cases hiw : isWordChar c
        · rw [hiw, hws] at hwd
          simp at hwd
        · rfl
      exact goodChar_of c0 he hw hdig hws

theorem preprocessChars_joinToks (S : List (List Char))
    (L : List Char → List Char) (ts : List (List Char))
    (h : ∀ u ∈ ts, goodTok u ∧ S.contains u = false ∧ L u = u) :
    preprocessChars S L (joinToks ts) = joinToks ts := by
  cases ts with
  | nil => simp [joinToks, preprocessChars]
  | cons t rest =>
    have hne : joinToks (t :: rest) ≠ [] :=
      joinToks_ne_nil (h t (List.mem_cons_self _ _)).1.1
    unfold preprocessChars
    rw [if_neg (by simpa using hne)]
    have hchars : ∀ c ∈ joinToks (t :: rest), c = ' ' ∨ goodChar c = true := by
      intro c hc
      rcases mem_joinToks hc with h1 | ⟨u, hu, hcu⟩
      · exact Or.inl h1
      · exact Or.inr ((h u hu).1.2 c hcu)
    have hlower : (joinToks (t :: rest)).map Char.toLower = joinToks (t :: rest) := by
      apply map_self
      intro c hc
      rcases hchars c hc with rfl | hg
      · decide
      · exact (goodChar_spec hg).2.2.2
    rw [hlower]
    have hstrip : stripSpecial (joinToks (t :: rest)) = joinToks (t :: rest) := by
      apply map_self
      intro c hc
      rcases hchars c hc with rfl | hg
      · decide
      · simp [(goodChar_spec hg).1]
    rw [hstrip]
    have hdig : stripDigits (joinToks (t :: rest)) = joinToks (t :: rest) := by
      apply stripDigitsAux_of_no_digits
      intro c hc
      rcases hchars c hc with rfl | hg
      · decide
      · exact (goodChar_spec hg).2.1
    show joinToks
        (((tokens (stripDigits (joinToks (t :: rest)))).filter
          (fun v => !S.contains v)).map L) = joinToks (t :: rest)
    rw [hdig]
    have htok : tokens (joinToks (t :: rest)) = t :: rest := by
      apply tokens_joinToks
      intro u hu
      obtain ⟨⟨g1, g2⟩, _, _⟩ := h u hu
      exact ⟨g1, fun c hc => (goodChar_spec (g2 c hc)).2.2.1⟩
    rw [htok]
    have hfilter : (t :: rest).filter (fun v => !S.contains v) = t :: rest := by
      rw [List.filter_eq_self]
      intro u hu
      simpa using (h u hu).2.1
    rw [hfilter]
    rw [map_self _ _ (fun u hu => (h u hu).2.2)]

theorem preprocessChars_idem (S : List (List Char))
    (L : List Char → List Char)
    (hL : ∀ t, goodTok t → S.contains t = false →
      goodTok (L t) ∧ S.contains (L t) = false ∧ L (L t) = L t)
    (x : List Char) :
    preprocessChars S L (preprocessChars S L x) = preprocessChars S L x := by
  by_cases hx : x.isEmpty
  · simp [preprocessChars, hx]
  · have hy : preprocessChars S L x =
        joinToks (((tokens (stripDigits (stripSpecial (x.map Char.toLower)))).filter
          (fun t => !S.contains t)).map L) := by
      unfold preprocessChars
      rw [if_neg hx]
    rw [hy]
    apply preprocessChars_joinToks
    intro u hu
    obtain ⟨t, ht, rfl⟩ := List.mem_map.mp hu
    rw [List.mem_filter] at ht
    exact hL t (tokens_pipeline_good x t ht.1) (by simpa using ht.2)

/-- C8: the document normalizer `_preprocess_text` is idempotent — for
every string, normalizing an already-normalized string returns it
unchanged, given that the stop-word set and lemmatizer tables satisfy the
spec's conditions: lemmas of clean tokens are clean non-stop-words and
fixed points of the lemmatizer. -/
theorem c8_preprocess_idempotent (S : List (List Char))
    (L : List Char → List Char)
    (hL : ∀ t, goodTok t → S.contains t = false →
      goodTok (L t) ∧ S.contains (L t) = false ∧ L (L t) = L t)
    (s : String) :
    _preprocess_text S L (_preprocess_text S L s) = _preprocess_text S L s :=
  congrArg String.mk (preprocessChars_idem S L hL s.data)

/-- Witness for C8: with the empty stop-word set and the identity
lemmatizer, normalizing a normalized mixed-case string with digits and
punctuation returns it unchanged. -/
theorem c8_witness :
    _preprocess_text [] id (_preprocess_text [] id "Action 123 Movies!!") =
      _preprocess_text [] id "Action 123 Movies!!" :=
  c8_preprocess_idempotent [] id (fun _ ht _ => ⟨ht, rfl, rfl⟩)
    "Action 123 Movies!!"

end MovieRec
